import Mathlib

/-!
# Verification of the speedy.wasm core claims

This file embeds, as Lean definitions, the parts of the speedy.wasm
repository needed to settle the frozen claims: the `AudioRingBuffer`
from `demo/ring-buffer.js`, the JavaScript-facing stream wrappers from
`bindings.cpp`, the placeholder setters from `wasm_exports.c`, and —
where the engine core (`speedy.c`, `deps/sonic/sonic.c`) is not part of
the provided sources — models written from the specification, each marked
`Modelled from the spec:` in its doc comment.

Samples are modelled as rationals (the code uses 32-bit floats; none of
the claims below hinges on floating-point rounding).
-/

/- ============================================================
   Part 1: AudioRingBuffer (demo/ring-buffer.js)
   ============================================================ -/

/-- The `AudioRingBuffer` state from `demo/ring-buffer.js`: a capacity and
channel count fixed at construction, the two header indices (`writeIndex`,
`readIndex`), and the interleaved `Float32Array` storage, modelled as a
total function from flat index `pos * channelCount + ch` to the sample. -/
structure AudioRingBuffer where
  capacity : ℕ
  channelCount : ℕ
  writeIndex : ℕ
  readIndex : ℕ
  storage : ℕ → ℚ

/-- The constructor `new AudioRingBuffer(capacity, channelCount)`: the
`SharedArrayBuffer` is zero-initialised, so both indices are 0 and the
storage holds zeros. -/
def AudioRingBuffer.init (capacity channelCount : ℕ) : AudioRingBuffer :=
  ⟨capacity, channelCount, 0, 0, fun _ => 0⟩

/-- The `availableSpace` computation inside `AudioRingBuffer.write`:
`capacity - (writeIndex - readIndex)` when `writeIndex >= readIndex`,
otherwise `readIndex - writeIndex`. -/
def AudioRingBuffer.availableSpace (b : AudioRingBuffer) : ℕ :=
  if b.readIndex ≤ b.writeIndex then b.capacity - (b.writeIndex - b.readIndex)
  else b.readIndex - b.writeIndex

/-- The `AudioRingBuffer.available()`: `writeIndex - readIndex` when
`writeIndex >= readIndex`, otherwise `capacity - (readIndex - writeIndex)`. -/
def AudioRingBuffer.available (b : AudioRingBuffer) : ℕ :=
  if b.readIndex ≤ b.writeIndex then b.writeIndex - b.readIndex
  else b.capacity - (b.readIndex - b.writeIndex)

/-- The inner channel loop of `AudioRingBuffer.write` restricted to the
first `n` channels: for `ch` in `[0, n)`, set
`storage[pos * cc + ch] = vals ch`. `writeChannels cc pos vals st` with
`n = cc` is the full inner loop. -/
def wcAux (cc pos : ℕ) (vals : ℕ → ℚ) (st : ℕ → ℚ) (n : ℕ) : ℕ → ℚ :=
  (List.range n).foldl (fun s ch => Function.update s (pos * cc + ch) (vals ch)) st

/-- The inner channel loop of `AudioRingBuffer.write`:
`for (ch = 0; ch < channelCount; ch++) storage[pos * channelCount + ch] = inputData[ch][i]`. -/
def writeChannels (cc pos : ℕ) (vals : ℕ → ℚ) (st : ℕ → ℚ) : ℕ → ℚ :=
  wcAux cc pos vals st cc

/-- The outer sample loop of `AudioRingBuffer.write`: for `i` in
`[0, inputLen)` with `pos = (writeIndex + i) % capacity`, run the inner
channel loop. Out-of-range JavaScript accesses `inputData[ch][i]`
(undefined in the source) are totalised to 0; the claims only use
well-formed inputs. -/
def AudioRingBuffer.writeLoop (b : AudioRingBuffer) (inputData : List (List ℚ))
    (inputLen : ℕ) : ℕ → ℚ :=
  (List.range inputLen).foldl
    (fun st i => writeChannels b.channelCount ((b.writeIndex + i) % b.capacity)
      (fun ch => (inputData.getD ch []).getD i 0) st) b.storage

/-- The `AudioRingBuffer.write(inputData)`: compute `inputLen` from channel 0,
return `false` leaving the buffer untouched when
`availableSpace < inputLen + 1` (the `+1` safety slot), otherwise perform
the write loop and advance `writeIndex` modulo `capacity`. -/
def AudioRingBuffer.write (b : AudioRingBuffer) (inputData : List (List ℚ)) :
    Bool × AudioRingBuffer :=
  if b.availableSpace < (inputData.headD []).length + 1 then (false, b)
  else (true, { b with
      storage := b.writeLoop inputData (inputData.headD []).length,
      writeIndex := (b.writeIndex + (inputData.headD []).length) % b.capacity })

/-- The `AudioRingBuffer.read(outputData, count)`: return `false` leaving the
buffer untouched when fewer than `count` samples are available, otherwise
fill one list per channel from the storage at
`((readIndex + i) % capacity) * channelCount + ch` and advance `readIndex`. -/
def AudioRingBuffer.read (b : AudioRingBuffer) (count : ℕ) :
    Bool × List (List ℚ) × AudioRingBuffer :=
  if b.available < count then (false, [], b)
  else (true,
    (List.range b.channelCount).map (fun ch =>
      (List.range count).map (fun i =>
        b.storage (((b.readIndex + i) % b.capacity) * b.channelCount + ch))),
    { b with readIndex := (b.readIndex + count) % b.capacity })

/-- Well-formedness of a ring buffer state: both header indices are below
the capacity (as established by the constructor and preserved by the
modular index updates). -/
def AudioRingBuffer.WF (b : AudioRingBuffer) : Prop :=
  b.writeIndex < b.capacity ∧ b.readIndex < b.capacity

/-- The unread samples of channel `ch`, in FIFO order: the storage cells
from `readIndex` through `writeIndex` (exclusive), read circularly. -/
def AudioRingBuffer.contents (b : AudioRingBuffer) (ch : ℕ) : List ℚ :=
  (List.range b.available).map (fun i =>
    b.storage (((b.readIndex + i) % b.capacity) * b.channelCount + ch))

/-- One buffer operation: a `write` of one multichannel chunk or a `read`
of a requested count. -/
inductive RBOp where
  | write (inputData : List (List ℚ))
  | read (count : ℕ)

/-- Apply one operation to the buffer, keeping the resulting state. -/
def AudioRingBuffer.apply (b : AudioRingBuffer) : RBOp → AudioRingBuffer
  | .write d => (b.write d).2
  | .read c => (b.read c).2.2

/-- Apply a sequence of operations in order. -/
def AudioRingBuffer.applyAll (b : AudioRingBuffer) (ops : List RBOp) : AudioRingBuffer :=
  ops.foldl AudioRingBuffer.apply b

/-- A multichannel chunk is well-formed for `cc` channels when every
channel below `cc` is present with the same length as channel 0 (the
length the source reads as `inputData[0].length`). -/
def wfChunk (cc : ℕ) (d : List (List ℚ)) : Prop :=
  ∀ c < cc, (d.getD c []).length = (d.headD []).length

/-- A sequence of `write` calls, as issued by the producer thread; the
Boolean records whether every write succeeded. -/
def AudioRingBuffer.writeAll (b : AudioRingBuffer) :
    List (List (List ℚ)) → Bool × AudioRingBuffer
  | [] => (true, b)
  | d :: ds =>
    let p := b.write d
    let q := p.2.writeAll ds
    (p.1 && q.1, q.2)

/-- A sequence of `read` calls, as issued by the consumer thread; the
Boolean records whether every read succeeded, and the outputs are
collected in call order. -/
def AudioRingBuffer.readAll (b : AudioRingBuffer) :
    List ℕ → Bool × List (List (List ℚ)) × AudioRingBuffer
  | [] => (true, [], b)
  | c :: cs =>
    let p := b.read c
    let q := p.2.2.readAll cs
    (p.1 && q.1, p.2.1 :: q.2.1, q.2.2)

example : ((AudioRingBuffer.init 4 1).write [[1, 2]]).1 = true := by decide
example : ((AudioRingBuffer.init 4 1).write [[1, 2, 3, 4]]).1 = false := by decide
example : (((AudioRingBuffer.init 4 1).write [[1, 2]]).2.read 2).2.1 = [[1, 2]] := by decide

/- ============================================================
   Part 1a: ring-buffer invariants (claim C9)
   ============================================================ -/

/-- Reduce one modulus whose argument is below `2 * n` to a subtraction. -/
theorem small_mod (x n : ℕ) (h : x < 2 * n) :
    x % n = if x < n then x else x - n := by
  split
  · exact Nat.mod_eq_of_lt (by assumption)
  · next hx =>
    have h1 : n ≤ x := le_of_not_lt hx
    rw [Nat.mod_eq_sub_mod h1, Nat.mod_eq_of_lt (by omega)]

/-- A rejected `write` (insufficient space) returns the buffer unchanged. -/
theorem AudioRingBuffer.write_failed (b : AudioRingBuffer) (d : List (List ℚ))
    (h : (b.write d).1 = false) : (b.write d).2 = b := by
  unfold AudioRingBuffer.write at h ⊢
  split at h
  · split <;> simp_all
  · simp at h

/-- Under well-formedness the readable count never reaches the capacity. -/
theorem AudioRingBuffer.avail_le (b : AudioRingBuffer) (h : b.WF) :
    b.available ≤ b.capacity - 1 := by
  obtain ⟨hw, hr⟩ := h
  unfold AudioRingBuffer.available
  split <;> omega

/-- The free space computed by `write` is the capacity minus the readable
count. -/
theorem AudioRingBuffer.space_eq (b : AudioRingBuffer) (h : b.WF) :
    b.availableSpace = b.capacity - b.available := by
  obtain ⟨hw, hr⟩ := h
  unfold AudioRingBuffer.availableSpace AudioRingBuffer.available
  split <;> omega

/-- The `write` preserves well-formedness. -/
theorem AudioRingBuffer.write_wf (b : AudioRingBuffer) (d : List (List ℚ))
    (h : b.WF) : ((b.write d).2).WF := by
  obtain ⟨hw, hr⟩ := h
  unfold AudioRingBuffer.write
  split
  · exact ⟨hw, hr⟩
  · exact ⟨Nat.mod_lt _ (by omega), hr⟩

/-- The `read` preserves well-formedness. -/
theorem AudioRingBuffer.read_wf (b : AudioRingBuffer) (c : ℕ)
    (h : b.WF) : ((b.read c).2.2).WF := by
  obtain ⟨hw, hr⟩ := h
  unfold AudioRingBuffer.read
  split
  · exact ⟨hw, hr⟩
  · exact ⟨hw, Nat.mod_lt _ (by omega)⟩

/-- Every operation preserves well-formedness. -/
theorem AudioRingBuffer.apply_wf (b : AudioRingBuffer) (op : RBOp)
    (h : b.WF) : (b.apply op).WF := by
  cases op with
  | write d => exact b.write_wf d h
  | read c => exact b.read_wf c h

/-- Every operation sequence preserves well-formedness. -/
theorem AudioRingBuffer.applyAll_wf (ops : List RBOp) (b : AudioRingBuffer)
    (h : b.WF) : (b.applyAll ops).WF := by
  induction ops generalizing b with
  | nil => exact h
  | cons op ops ih => exact ih _ (b.apply_wf op h)

/-- The fresh buffer is well-formed when the capacity is positive. -/
theorem AudioRingBuffer.init_wf (cap cc : ℕ) (h : 0 < cap) :
    (AudioRingBuffer.init cap cc).WF := ⟨h, h⟩

/-- C9: the `AudioRingBuffer` write is all-or-nothing — when fewer than
`inputLen + 1` slots are free it returns `false` and leaves the write
index, read index and storage unchanged — and after any sequence of write
and read operations on a freshly constructed buffer the readable count
satisfies `available() ≤ capacity − 1` (the lower bound `0 ≤ available()`
is inherent in the natural-number model). -/
theorem c9_ring_buffer_all_or_nothing (cap cc : ℕ) (ops : List RBOp)
    (d : List (List ℚ)) (hcap : 0 < cap) :
    ((AudioRingBuffer.init cap cc).applyAll ops).available ≤ cap - 1 ∧
    ((((AudioRingBuffer.init cap cc).applyAll ops).write d).1 = false →
      ((((AudioRingBuffer.init cap cc).applyAll ops).write d).2 =
        (AudioRingBuffer.init cap cc).applyAll ops)) := by
  have hwf : ((AudioRingBuffer.init cap cc).applyAll ops).WF :=
    AudioRingBuffer.applyAll_wf ops _ (AudioRingBuffer.init_wf cap cc hcap)
  have hcapeq : ((AudioRingBuffer.init cap cc).applyAll ops).capacity = cap := by
    have : ∀ (b : AudioRingBuffer) (os : List RBOp),
        (b.applyAll os).capacity = b.capacity := by
      intro b os
      induction os generalizing b with
      | nil => rfl
      | cons op os ih =>
        have hstep : (b.apply op).capacity = b.capacity := by
          cases op with
          | write dd =>
            simp only [AudioRingBuffer.apply]
            unfold AudioRingBuffer.write
            split <;> rfl
          | read c =>
            simp only [AudioRingBuffer.apply]
            unfold AudioRingBuffer.read
            split <;> rfl
        calc (b.applyAll (op :: os)).capacity
            = ((b.apply op).applyAll os).capacity := rfl
          _ = (b.apply op).capacity := ih _
          _ = b.capacity := hstep
    exact this _ _
  constructor
  · have := AudioRingBuffer.avail_le _ hwf
    omega
  · exact AudioRingBuffer.write_failed _ d

/-- Witness for C9 at a concrete run: capacity 4, one channel, one
successful write of two samples and one read of one sample, then a
rejected oversized write. -/
theorem c9_ring_buffer_all_or_nothing_witness :
    0 < 4 ∧
    (((AudioRingBuffer.init 4 1).applyAll [RBOp.write [[1, 2]], RBOp.read 1]).available ≤ 4 - 1 ∧
    ((((AudioRingBuffer.init 4 1).applyAll [RBOp.write [[1, 2]], RBOp.read 1]).write
        [[5, 6, 7]]).1 = false →
      ((((AudioRingBuffer.init 4 1).applyAll [RBOp.write [[1, 2]], RBOp.read 1]).write
        [[5, 6, 7]]).2 =
        (AudioRingBuffer.init 4 1).applyAll [RBOp.write [[1, 2]], RBOp.read 1]))) :=
  ⟨by decide,
   c9_ring_buffer_all_or_nothing 4 1 [RBOp.write [[1, 2]], RBOp.read 1] [[5, 6, 7]]
     (by decide)⟩

/- ============================================================
   Part 1b: pointwise characterisation of the write loop (claim C10)
   ============================================================ -/

/-- Unfold one step of the inner channel loop. -/
theorem wcAux_succ (cc pos : ℕ) (vals : ℕ → ℚ) (st : ℕ → ℚ) (n : ℕ) :
    wcAux cc pos vals st (n + 1) =
      Function.update (wcAux cc pos vals st n) (pos * cc + n) (vals n) := by
  unfold wcAux
  rw [List.range_succ, List.foldl_append]
  rfl

/-- Cells not of the form `pos * cc + ch` with `ch < n` are untouched by
the inner channel loop. -/
theorem wcAux_ne (cc pos : ℕ) (vals : ℕ → ℚ) (st : ℕ → ℚ) (n idx : ℕ)
    (h : ∀ ch < n, idx ≠ pos * cc + ch) :
    wcAux cc pos vals st n idx = st idx := by
  induction n with
  | zero => rfl
  | succ m ih =>
    rw [wcAux_succ, Function.update_noteq (h m (Nat.lt_succ_self m)), ih]
    intro ch hch
    exact h ch (Nat.lt_succ_of_lt hch)

/-- The inner channel loop stores `vals ch` at cell `pos * cc + ch`. -/
theorem wcAux_eq (cc pos : ℕ) (vals : ℕ → ℚ) (st : ℕ → ℚ) (n ch : ℕ)
    (h : ch < n) :
    wcAux cc pos vals st n (pos * cc + ch) = vals ch := by
  induction n with
  | zero => omega
  | succ m ih =>
    rw [wcAux_succ]
    rcases Nat.lt_succ_iff_lt_or_eq.mp h with hlt | heq
    · rw [Function.update_noteq (by omega), ih hlt]
    · subst heq
      exact Function.update_same _ _ _

/-- Flat indices determine the position and the channel when both
channels are in range. -/
theorem flatIdx_inj (cc p1 p2 ch1 ch2 : ℕ) (h1 : ch1 < cc) (h2 : ch2 < cc)
    (h : p1 * cc + ch1 = p2 * cc + ch2) : p1 = p2 ∧ ch1 = ch2 := by
  have hcc : 0 < cc := by omega
  have e1 : (ch1 + p1 * cc) / cc = p1 := by
    rw [Nat.add_mul_div_right _ _ hcc, Nat.div_eq_of_lt h1, Nat.zero_add]
  have e2 : (ch2 + p2 * cc) / cc = p2 := by
    rw [Nat.add_mul_div_right _ _ hcc, Nat.div_eq_of_lt h2, Nat.zero_add]
  have h' : ch1 + p1 * cc = ch2 + p2 * cc := by omega
  have hp : p1 = p2 := by rw [← e1, ← e2, h']
  subst hp
  exact ⟨rfl, by omega⟩

/-- Unfold one step of the outer write loop. -/
theorem writeLoop_succ (b : AudioRingBuffer) (d : List (List ℚ)) (n : ℕ) :
    b.writeLoop d (n + 1) =
      writeChannels b.channelCount ((b.writeIndex + n) % b.capacity)
        (fun ch => (d.getD ch []).getD n 0) (b.writeLoop d n) := by
  unfold AudioRingBuffer.writeLoop
  rw [List.range_succ, List.foldl_append]
  rfl

/-- Cells outside the written region are untouched by the write loop. -/
theorem writeLoop_ne (b : AudioRingBuffer) (d : List (List ℚ)) (n idx : ℕ)
    (h : ∀ i < n, ∀ ch < b.channelCount,
      idx ≠ ((b.writeIndex + i) % b.capacity) * b.channelCount + ch) :
    b.writeLoop d n idx = b.storage idx := by
  induction n with
  | zero => rfl
  | succ m ih =>
    rw [writeLoop_succ]
    unfold writeChannels
    rw [wcAux_ne _ _ _ _ _ _ (fun ch hch => h m (Nat.lt_succ_self m) ch hch)]
    exact ih fun i hi ch hch => h i (Nat.lt_succ_of_lt hi) ch hch

/-- The write loop stores sample `i` of channel `ch` at the cell of
position `(writeIndex + i) % capacity`, provided the written positions
are pairwise distinct. -/
theorem writeLoop_eq (b : AudioRingBuffer) (d : List (List ℚ)) (n i ch : ℕ)
    (hi : i < n) (hch : ch < b.channelCount)
    (hinj : ∀ i' < n, (b.writeIndex + i') % b.capacity =
      (b.writeIndex + i) % b.capacity → i' = i) :
    b.writeLoop d n (((b.writeIndex + i) % b.capacity) * b.channelCount + ch) =
      (d.getD ch []).getD i 0 := by
  induction n with
  | zero => omega
  | succ m ih =>
    rw [writeLoop_succ]
    unfold writeChannels
    rcases Nat.lt_succ_iff_lt_or_eq.mp hi with hlt | heq
    · have hpos : (b.writeIndex + m) % b.capacity ≠ (b.writeIndex + i) % b.capacity := by
        intro hcontra
        have := hinj m (Nat.lt_succ_self m) hcontra
        omega
      rw [wcAux_ne]
      · exact ih hlt fun i' hi' hmod => hinj i' (Nat.lt_succ_of_lt hi') hmod
      · intro ch' hch' hcontra
        exact hpos (flatIdx_inj _ _ _ _ _ hch hch' hcontra).1.symm
    · subst heq
      exact wcAux_eq _ _ _ _ _ _ hch

/-- The `write` succeeds exactly when the readable count plus the chunk length
leaves the one-slot safety gap inside the capacity. -/
theorem AudioRingBuffer.write_ok_iff (b : AudioRingBuffer) (d : List (List ℚ))
    (h : b.WF) :
    (b.write d).1 = true ↔
      b.available + (d.headD []).length + 1 ≤ b.capacity := by
  have hsp := b.space_eq h
  have hle := b.avail_le h
  obtain ⟨hw, hr⟩ := h
  unfold AudioRingBuffer.write
  split
  · next hc =>
    constructor
    · intro hx
      simp at hx
    · intro hx
      exfalso
      omega
  · next hc =>
    constructor
    · intro _
      omega
    · intro _
      rfl

/-- The `channelCount` is unchanged by `write`. -/
theorem AudioRingBuffer.write_cc (b : AudioRingBuffer) (d : List (List ℚ)) :
    ((b.write d).2).channelCount = b.channelCount := by
  unfold AudioRingBuffer.write
  split <;> rfl

/-- The `readIndex` is unchanged by `write`. -/
theorem AudioRingBuffer.write_ri (b : AudioRingBuffer) (d : List (List ℚ)) :
    ((b.write d).2).readIndex = b.readIndex := by
  unfold AudioRingBuffer.write
  split <;> rfl

/-- The `channelCount` is unchanged by `read`. -/
theorem AudioRingBuffer.read_cc (b : AudioRingBuffer) (c : ℕ) :
    ((b.read c).2.2).channelCount = b.channelCount := by
  unfold AudioRingBuffer.read
  split <;> rfl

/-- A successful `write` grows the readable count by the chunk length. -/
theorem AudioRingBuffer.write_avail (b : AudioRingBuffer) (d : List (List ℚ))
    (h : b.WF) (hok : (b.write d).1 = true) :
    ((b.write d).2).available = b.available + (d.headD []).length := by
  have hsucc := (b.write_ok_iff d h).mp hok
  obtain ⟨hw, hr⟩ := h
  unfold AudioRingBuffer.available at hsucc
  unfold AudioRingBuffer.write at hok ⊢
  split at hok
  · simp at hok
  · next hc =>
    rw [if_neg hc]
    unfold AudioRingBuffer.available
    dsimp only
    rw [small_mod (b.writeIndex + (d.headD []).length) b.capacity
      (by split_ifs at hsucc <;> omega)]
    split_ifs at hsucc ⊢ <;> omega

/-- A successful `read` shrinks the readable count by the requested count. -/
theorem AudioRingBuffer.read_avail (b : AudioRingBuffer) (count : ℕ)
    (h : b.WF) (hcount : count ≤ b.available) :
    ((b.read count).2.2).available = b.available - count := by
  obtain ⟨hw, hr⟩ := h
  have hle := b.avail_le ⟨hw, hr⟩
  have hcount2 := hcount
  unfold AudioRingBuffer.available at hcount2 hle
  unfold AudioRingBuffer.read
  rw [if_neg (Nat.not_lt.mpr hcount)]
  unfold AudioRingBuffer.available
  dsimp only
  rw [small_mod (b.readIndex + count) b.capacity
    (by split_ifs at hcount2 hle <;> omega)]
  split_ifs at hcount2 hle ⊢ <;> omega

/-- The write cursor sits `available` steps past the read cursor,
circularly. -/
theorem AudioRingBuffer.w_mod_char (b : AudioRingBuffer) (h : b.WF) (i : ℕ) :
    (b.writeIndex + i) % b.capacity =
      (b.readIndex + (b.available + i)) % b.capacity := by
  obtain ⟨hw, hr⟩ := h
  unfold AudioRingBuffer.available
  split
  · next hc =>
    congr 1
    omega
  · next hc =>
    have e : b.readIndex + ((b.capacity - (b.readIndex - b.writeIndex)) + i)
        = b.writeIndex + i + b.capacity := by omega
    rw [e, Nat.add_mod_right]

/-- Cancellation of a common circular base: two in-range offsets from the
same cursor that land on the same cell are equal. -/
theorem mod_add_cancel (r a c n : ℕ) (ha : a < n) (hc : c < n)
    (h : (r + a) % n = (r + c) % n) : a = c := by
  have h2 : a % n = c % n := Nat.ModEq.add_left_cancel' r h
  rwa [Nat.mod_eq_of_lt ha, Nat.mod_eq_of_lt hc] at h2

/-- Reading a list back by positions reproduces the list. -/
theorem map_range_getD (l : List ℚ) :
    (List.range l.length).map (fun i => l.getD i 0) = l := by
  apply List.ext_getElem
  · simp
  · intro i h1 h2
    simp [List.getElem?_eq_getElem h2]

/- ============================================================
   Part 1c: contents evolution under write and read (claim C10)
   ============================================================ -/

/-- A successful `write` appends the chunk's channel data to the unread
contents of that channel. -/
theorem AudioRingBuffer.contents_write (b : AudioRingBuffer) (d : List (List ℚ))
    (ch : ℕ) (h : b.WF) (hch : ch < b.channelCount) (hwfd : wfChunk b.channelCount d)
    (hok : (b.write d).1 = true) :
    AudioRingBuffer.contents ((b.write d).2) ch = b.contents ch ++ d.getD ch [] := by
  have hsucc := (b.write_ok_iff d h).mp hok
  have havail := b.write_avail d h hok
  obtain ⟨hw, hr⟩ := h
  have hlt := b.avail_le ⟨hw, hr⟩
  unfold AudioRingBuffer.write at hok havail ⊢
  split at hok
  · simp at hok
  · next hc =>
    rw [if_neg hc] at havail ⊢
    unfold AudioRingBuffer.contents
    dsimp only at havail ⊢
    rw [havail, List.range_add, List.map_append, List.map_map]
    congr 1
    · apply List.map_congr_left
      intro i hi
      rw [List.mem_range] at hi
      apply writeLoop_ne
      intro i2 hi2 ch' hch' hcontra
      obtain ⟨hpos, hcheq⟩ := flatIdx_inj b.channelCount _ _ _ _ hch hch' hcontra
      rw [b.w_mod_char ⟨hw, hr⟩ i2] at hpos
      have := mod_add_cancel b.readIndex i (b.available + i2) b.capacity
        (by omega) (by omega) hpos
      omega
    · have hlen : (d.getD ch []).length = (d.headD []).length := hwfd ch hch
      rw [← map_range_getD (d.getD ch []), hlen]
      apply List.map_congr_left
      intro j hj
      rw [List.mem_range] at hj
      simp only [Function.comp_apply]
      rw [← b.w_mod_char ⟨hw, hr⟩ j]
      apply writeLoop_eq
      · exact hj
      · exact hch
      · intro i2 hi2 hmod2
        rw [b.w_mod_char ⟨hw, hr⟩ i2, b.w_mod_char ⟨hw, hr⟩ j] at hmod2
        have := mod_add_cancel b.readIndex (b.available + i2) (b.available + j)
          b.capacity (by omega) (by omega) hmod2
        omega

/-- A successful `read` returns, for each channel in range, the first
`count` unread samples of that channel. -/
theorem AudioRingBuffer.read_out (b : AudioRingBuffer) (count ch : ℕ)
    (h : b.WF) (hch : ch < b.channelCount) (hcount : count ≤ b.available) :
    ((b.read count).2.1).getD ch [] = (b.contents ch).take count := by
  obtain ⟨hw, hr⟩ := h
  unfold AudioRingBuffer.read
  rw [if_neg (Nat.not_lt.mpr hcount)]
  dsimp only
  have hchlen : ch < ((List.range b.channelCount).map (fun ch =>
      (List.range count).map (fun i =>
        b.storage (((b.readIndex + i) % b.capacity) * b.channelCount + ch)))).length := by
    simpa using hch
  rw [List.getD_eq_getElem _ _ hchlen]
  rw [List.getElem_map, List.getElem_range]
  unfold AudioRingBuffer.contents
  rw [← List.map_take, List.take_range, Nat.min_eq_left hcount]

/-- A successful `read` drops the first `count` unread samples of every
channel. -/
theorem AudioRingBuffer.contents_read (b : AudioRingBuffer) (count ch : ℕ)
    (h : b.WF) (hcount : count ≤ b.available) :
    AudioRingBuffer.contents ((b.read count).2.2) ch = (b.contents ch).drop count := by
  have havail := b.read_avail count h hcount
  obtain ⟨hw, hr⟩ := h
  unfold AudioRingBuffer.read at havail ⊢
  rw [if_neg (Nat.not_lt.mpr hcount)] at havail ⊢
  unfold AudioRingBuffer.contents
  dsimp only at havail ⊢
  rw [havail]
  apply List.ext_getElem
  · simp
  · intro i h1 h2
    simp only [List.getElem_map, List.getElem_range, List.getElem_drop]
    rw [Nat.mod_add_mod, Nat.add_assoc]

/-- A `read` that reports success was within the readable count. -/
theorem AudioRingBuffer.read_ok_le (b : AudioRingBuffer) (count : ℕ)
    (hok : (b.read count).1 = true) : count ≤ b.available := by
  by_contra hlt
  unfold AudioRingBuffer.read at hok
  rw [if_pos (Nat.not_le.mp hlt)] at hok
  simp at hok

/-- A run of successful writes appends all submitted channel data, in
order, to the unread contents. -/
theorem AudioRingBuffer.writeAll_spec (chunks : List (List (List ℚ)))
    (b : AudioRingBuffer) (h : b.WF)
    (hchunks : ∀ d ∈ chunks, wfChunk b.channelCount d)
    (hok : (b.writeAll chunks).1 = true) :
    ((b.writeAll chunks).2).WF ∧
    ((b.writeAll chunks).2).channelCount = b.channelCount ∧
    ∀ ch < b.channelCount,
      AudioRingBuffer.contents ((b.writeAll chunks).2) ch =
        b.contents ch ++ (chunks.map (fun d => d.getD ch [])).flatten := by
  induction chunks generalizing b with
  | nil =>
    refine ⟨h, rfl, ?_⟩
    intro ch _
    simp [AudioRingBuffer.writeAll]
  | cons d ds ih =>
    have hok' : (b.write d).1 = true ∧ ((b.write d).2.writeAll ds).1 = true := by
      simpa [AudioRingBuffer.writeAll, Bool.and_eq_true] using hok
    have hwf1 := b.write_wf d h
    have hcc1 := b.write_cc d
    have hch' : ∀ d2 ∈ ds, wfChunk ((b.write d).2).channelCount d2 := by
      rw [hcc1]
      exact fun d2 hd2 => hchunks d2 (List.mem_cons_of_mem _ hd2)
    obtain ⟨iwf, icc, icont⟩ := ih _ hwf1 hch' hok'.2
    have hstep : (b.writeAll (d :: ds)).2 = ((b.write d).2.writeAll ds).2 := rfl
    refine ⟨by rw [hstep]; exact iwf, by rw [hstep, icc, hcc1], ?_⟩
    intro ch hch
    rw [hstep, icont ch (by rw [hcc1]; exact hch)]
    rw [b.contents_write d ch h hch (hchunks d (List.mem_cons_self d ds)) hok'.1]
    simp [List.append_assoc]

/-- A run of successful reads delivers exactly the first `counts.sum`
unread samples of every channel, in order, and removes them. -/
theorem AudioRingBuffer.readAll_spec (counts : List ℕ) (b : AudioRingBuffer)
    (h : b.WF) (hok : (b.readAll counts).1 = true) (ch : ℕ)
    (hch : ch < b.channelCount) :
    (((b.readAll counts).2.1).map (fun out => out.getD ch [])).flatten =
      (b.contents ch).take counts.sum ∧
    AudioRingBuffer.contents ((b.readAll counts).2.2) ch =
      (b.contents ch).drop counts.sum := by
  induction counts generalizing b with
  | nil =>
    constructor
    · simp [AudioRingBuffer.readAll]
    · simp [AudioRingBuffer.readAll]
  | cons c cs ih =>
    have hok' : (b.read c).1 = true ∧ ((b.read c).2.2.readAll cs).1 = true := by
      simpa [AudioRingBuffer.readAll, Bool.and_eq_true] using hok
    have hcle := b.read_ok_le c hok'.1
    have hwf1 := b.read_wf c h
    have hcc1 := b.read_cc c
    obtain ⟨iA, iB⟩ := ih _ hwf1 hok'.2 (by rw [hcc1]; exact hch)
    have routA := b.read_out c ch h hch hcle
    have routB := b.contents_read c ch h hcle
    constructor
    · have hstep1 : (b.readAll (c :: cs)).2.1 =
          (b.read c).2.1 :: ((b.read c).2.2.readAll cs).2.1 := rfl
      rw [hstep1, List.map_cons, List.flatten_cons, routA, iA, routB]
      rw [List.sum_cons, List.take_add]
    · have hstep2 : (b.readAll (c :: cs)).2.2 = ((b.read c).2.2.readAll cs).2.2 := rfl
      rw [hstep2, iB, routB, List.drop_drop, List.sum_cons]

/-- A fresh buffer has no unread contents. -/
theorem AudioRingBuffer.contents_init (cap cc ch : ℕ) :
    (AudioRingBuffer.init cap cc).contents ch = [] := rfl

/-- C10: the `AudioRingBuffer` is a FIFO — for every sequence of
successful writes followed by successful reads (each request within the
then-available count) that together drain everything written, the
per-channel sample sequence delivered by the reads equals the per-channel
sequence submitted by the writes, in order. -/
theorem c10_ring_buffer_fifo (cap cc : ℕ) (chunks : List (List (List ℚ)))
    (counts : List ℕ) (hcap : 0 < cap)
    (hchunks : ∀ d ∈ chunks, wfChunk cc d)
    (hw : ((AudioRingBuffer.init cap cc).writeAll chunks).1 = true)
    (hr : (((AudioRingBuffer.init cap cc).writeAll chunks).2.readAll counts).1 = true)
    (hsum : counts.sum = (chunks.map (fun d => (d.headD []).length)).sum) :
    ∀ ch < cc,
      ((((AudioRingBuffer.init cap cc).writeAll chunks).2.readAll counts).2.1.map
          (fun out => out.getD ch [])).flatten =
        (chunks.map (fun d => d.getD ch [])).flatten := by
  intro ch hch
  have hwf0 : (AudioRingBuffer.init cap cc).WF := AudioRingBuffer.init_wf cap cc hcap
  obtain ⟨hwf1, hcc1, hcont1⟩ :=
    AudioRingBuffer.writeAll_spec chunks _ hwf0 hchunks hw
  have hA := (AudioRingBuffer.readAll_spec counts _ hwf1 hr ch
    (by rw [hcc1]; exact hch)).1
  rw [hA, hcont1 ch hch, AudioRingBuffer.contents_init, List.nil_append]
  have hlen : ((chunks.map (fun d => d.getD ch [])).flatten).length = counts.sum := by
    rw [List.length_flatten, List.map_map, hsum]
    congr 1
    apply List.map_congr_left
    intro d hd
    simp only [Function.comp_apply]
    exact hchunks d hd ch hch
  rw [← hlen, List.take_length]

instance (cc : ℕ) (d : List (List ℚ)) : Decidable (wfChunk cc d) := by
  unfold wfChunk
  infer_instance

/-- Witness for C10 at a concrete run: capacity 8, one channel, chunks
`[1,2,3]` and `[4,5]` written, then reads of 2 and 3 samples delivering
`[1,2]` and `[3,4,5]`. -/
theorem c10_ring_buffer_fifo_witness :
    (0 < 8 ∧
      (∀ d ∈ [[[(1 : ℚ), 2, 3]], [[4, 5]]], wfChunk 1 d) ∧
      ((AudioRingBuffer.init 8 1).writeAll [[[1, 2, 3]], [[4, 5]]]).1 = true ∧
      (((AudioRingBuffer.init 8 1).writeAll [[[1, 2, 3]], [[4, 5]]]).2.readAll
        [2, 3]).1 = true ∧
      ([2, 3] : List ℕ).sum =
        ([[[(1 : ℚ), 2, 3]], [[4, 5]]].map (fun d => (d.headD []).length)).sum) ∧
    (∀ ch < 1,
      ((((AudioRingBuffer.init 8 1).writeAll [[[1, 2, 3]], [[4, 5]]]).2.readAll
          [2, 3]).2.1.map (fun out => out.getD ch [])).flatten =
        ([[[(1 : ℚ), 2, 3]], [[4, 5]]].map (fun d => d.getD ch [])).flatten) :=
  ⟨⟨by decide, by decide, by decide, by decide, by decide⟩,
   c10_ring_buffer_fifo 8 1 [[[1, 2, 3]], [[4, 5]]] [2, 3]
     (by decide) (by decide) (by decide) (by decide) (by decide)⟩

/- ============================================================
   Part 2: engine state and bindings (claims C1–C8)
   ============================================================ -/

/-- The error channel of the JavaScript-facing wrappers in
`bindings.cpp`: a thrown `std::runtime_error` carrying a message, or the
specification's `InvalidConfiguration` error kind (which, as proved
below, no setter ever raises). -/
inductive EngineError where
  | runtimeError (msg : String)
  | invalidConfiguration
deriving DecidableEq

/-- Modelled from the spec: the controller and buffer state of the engine
core (`speedy.c` and `deps/sonic/sonic.c` are not part of `src/`): the
global speed Rg, the nonlinear factor λ, the duration-feedback strength,
the input and output sample rings (per channel), and a frame counter. -/
structure SonicState where
  speed : ℚ
  nonlinearFactor : ℚ
  durationFeedbackStrength : ℚ
  inputRing : List ℚ
  outputRing : List ℚ
  frameCounter : ℤ
deriving DecidableEq

/-- The `sonicEnableNonlinearSpeedup` from `wasm_exports.c`: the body checks
the stream and its user data for null and then only `printf`s the factor
("Setting nonlinear speedup factor to …"); it assigns nothing, so the
stream state is returned unchanged (console output is not stream state). -/
def sonicEnableNonlinearSpeedup (stream : SonicState) (factor : ℚ) : SonicState :=
  stream

/-- The `sonicSetDurationFeedbackStrength` from `wasm_exports.c`: likewise
only `printf`s the factor and assigns nothing. -/
def sonicSetDurationFeedbackStrength (stream : SonicState) (factor : ℚ) :
    SonicState :=
  stream

/-- Modelled from the spec: `sonicSetSpeed` (in `deps/sonic/sonic.c`, not
under `src/`) stores the requested rate as the stream speed; its C
signature returns `void`, so it can report no error to the wrapper. -/
def sonicSetSpeed (stream : SonicState) (rate : ℚ) : SonicState :=
  { stream with speed := rate }

/-- Modelled from the spec: `sonicReadFloatFromStream` (in
`deps/sonic/sonic.c`, not under `src/`) drains the output ring up to
`maxSamples` samples per channel and returns the count produced, 0 when
dry. -/
def sonicReadFloatFromStream (stream : SonicState) (maxSamples : ℕ) :
    ℕ × List ℚ × SonicState :=
  ((stream.outputRing.take maxSamples).length,
   stream.outputRing.take maxSamples,
   { stream with outputRing := stream.outputRing.drop maxSamples })

/-- Modelled from the spec: uniform time scaling at rate `s`, abstracting
the SOLA cross-fades of the TSM engine (`deps/sonic/sonic.c`, not under
`src/`) to sample selection — the output holds `⌊len/s⌋` samples, the
k-th taken at input position `⌊k·s⌋`; non-positive speeds produce
nothing. -/
def uniformScale (s : ℚ) (xs : List ℚ) : List ℚ :=
  if s ≤ 0 then []
  else (List.range (Int.toNat ⌊(xs.length : ℚ) / s⌋)).map
    (fun k => xs.getD (Int.toNat ⌊(k : ℚ) * s⌋) 0)

/-- Modelled from the spec: `sonicWriteFloatToStream` appends the samples
to the input ring and opportunistically synthesizes output at the current
speed into the output ring, returning the per-channel count written (the
unbounded model never short-writes). -/
def sonicWriteFloatToStream (stream : SonicState) (data : List ℚ) :
    ℕ × SonicState :=
  (data.length,
   { stream with
      inputRing := [],
      outputRing := stream.outputRing ++
        uniformScale stream.speed (stream.inputRing ++ data),
      frameCounter := stream.frameCounter + 1 })

/-- Modelled from the spec: `sonicFlushStream` drains the remaining input
through the scaler, leaving only output to be read. -/
def sonicFlushStream (stream : SonicState) : SonicState :=
  { stream with
      inputRing := [],
      outputRing := stream.outputRing ++ uniformScale stream.speed stream.inputRing }

/-- The `SonicStreamWrapper` of `bindings.cpp`: the engine stream, the
construction parameters, and the `speedProfile` vector buffering
`(time, speed)` pairs flat, exactly as `recordSpeed` pushes them. -/
structure SonicStreamWrapper where
  stream : SonicState
  sampleRate : ℤ
  numChannels : ℤ
  speedProfile : List ℚ
deriving DecidableEq

/-- The `SonicStreamWrapper::recordSpeed` (`bindings.cpp`): push the frame
time and then the speed onto the flat profile buffer. -/
def SonicStreamWrapper.recordSpeed (w : SonicStreamWrapper) (time : ℤ)
    (speed : ℚ) : SonicStreamWrapper :=
  { w with speedProfile := w.speedProfile ++ [(time : ℚ), speed] }

/-- The `SonicStreamWrapper::getSpeedProfile` (`bindings.cpp`): return
`undefined` (here `none`) when the buffer is empty, otherwise the
accumulated flat pairs, and clear the buffer. -/
def SonicStreamWrapper.getSpeedProfile (w : SonicStreamWrapper) :
    Option (List ℚ) × SonicStreamWrapper :=
  if w.speedProfile = [] then (none, w)
  else (some w.speedProfile, { w with speedProfile := [] })

/-- The `SonicStreamWrapper::setSpeed` (`bindings.cpp`): forwards to
`sonicSetSpeed` with no validation and no throw. -/
def SonicStreamWrapper.setSpeed (w : SonicStreamWrapper) (rate : ℚ) :
    Except EngineError SonicStreamWrapper :=
  .ok { w with stream := sonicSetSpeed w.stream rate }

/-- The `SonicStreamWrapper::enableNonlinearSpeedup` (`bindings.cpp`):
forwards to `sonicEnableNonlinearSpeedup` with no validation and no
throw. -/
def SonicStreamWrapper.enableNonlinearSpeedup (w : SonicStreamWrapper)
    (factor : ℚ) : Except EngineError SonicStreamWrapper :=
  .ok { w with stream := sonicEnableNonlinearSpeedup w.stream factor }

/-- The `SonicStreamWrapper::setDurationFeedbackStrength` (`bindings.cpp`):
forwards to `sonicSetDurationFeedbackStrength` with no validation and no
throw. -/
def SonicStreamWrapper.setDurationFeedbackStrength (w : SonicStreamWrapper)
    (factor : ℚ) : Except EngineError SonicStreamWrapper :=
  .ok { w with stream := sonicSetDurationFeedbackStrength w.stream factor }

/-- The `SonicStreamWrapper::readFloatFromStreamPtr` (`bindings.cpp`):
forwards to `sonicReadFloatFromStream` and returns its count together
with the drained samples; no code path throws. -/
def SonicStreamWrapper.readFloatFromStreamPtr (w : SonicStreamWrapper)
    (bufferSize : ℕ) : Except EngineError (ℕ × List ℚ × SonicStreamWrapper) :=
  .ok ((sonicReadFloatFromStream w.stream bufferSize).1,
       (sonicReadFloatFromStream w.stream bufferSize).2.1,
       { w with stream := (sonicReadFloatFromStream w.stream bufferSize).2.2 })

/-- Modelled from the spec: the Analyzer state of `speedy.c` (not under
`src/`) — the current frame counter and the per-frame tension values the
spectral pipeline has computed. -/
structure SpeedyState where
  currentTime : ℤ
  tensionAt : ℤ → ℚ

/-- The default future hysteresis count of `bindings.cpp`
(`kTemporalHysteresisFuture`, 12 in the default build). -/
def kTemporalHysteresisFuture : ℤ := 12

/-- Modelled from the spec: `speedyComputeTension` (the `try_tension`
query, `speedy.c` not under `src/`) returns a tension only once
`f + K_future ≤ current_frame`; before the hysteresis window is full it
fails with `NotYetAvailable`, modelled as `none`. -/
def speedyComputeTension (st : SpeedyState) (atTime : ℤ) : Option ℚ :=
  if atTime + kTemporalHysteresisFuture ≤ st.currentTime then
    some (st.tensionAt atTime)
  else none

/-- The `SpeedyStreamWrapper::computeTension` (`bindings.cpp`): calls
`speedyComputeTension` and, when it reports no result, throws
`std::runtime_error("Insufficient data to compute tension at time …")`. -/
def SpeedyStreamWrapper.computeTension (st : SpeedyState) (atTime : ℤ) :
    Except EngineError ℚ :=
  match speedyComputeTension st atTime with
  | some tension => .ok tension
  | none => .error (.runtimeError
      ("Insufficient data to compute tension at time " ++ toString atTime))

/-- The `SpeedyStreamWrapper::temporalHysteresisPast` (`bindings.cpp`): 12
under `MATCH_MATLAB`, 8 otherwise; the stream state is ignored. -/
def SpeedyStreamWrapper.temporalHysteresisPast (matchMatlab : Bool)
    (st : SpeedyState) : ℤ :=
  if matchMatlab then 12 else 8

/-- The `SpeedyStreamWrapper::temporalHysteresisFuture` (`bindings.cpp`): 8
under `MATCH_MATLAB`, 12 otherwise; the stream state is ignored. -/
def SpeedyStreamWrapper.temporalHysteresisFuture (matchMatlab : Bool)
    (st : SpeedyState) : ℤ :=
  if matchMatlab then 8 else 12

/-- The `SonicStreamWrapper::getSpeedyTemporalHysteresisFuture`
(`bindings.cpp`): the same constant choice, exposed on the Sonic
wrapper. -/
def SonicStreamWrapper.getSpeedyTemporalHysteresisFuture (matchMatlab : Bool)
    (w : SonicStreamWrapper) : ℤ :=
  if matchMatlab then 8 else 12

/-- Modelled from the spec: the effective speed of the Speed Controller
(`speedy.c`, not under `src/`): `s_eff = λ·s + (1−λ)·Rg`. -/
def sEff (lam s Rg : ℚ) : ℚ := lam * s + (1 - lam) * Rg

/-- Modelled from the spec: the cumulative output target of the TSM after
`k` frames of `frameStep` input samples at constant speed `q`: the
duration-feedback controller keeps the emitted total on the integral of
`1/s` over the input. -/
def tsmTarget (frameStep : ℕ) (q : ℚ) (k : ℕ) : ℤ :=
  ⌊((k * frameStep : ℕ) : ℚ) / q⌋

/-- Modelled from the spec: the samples the TSM emits for frame `k` — the
difference of consecutive cumulative targets. -/
def tsmFrameOut (frameStep : ℕ) (q : ℚ) (k : ℕ) : ℤ :=
  tsmTarget frameStep q (k + 1) - tsmTarget frameStep q k

/-- Modelled from the spec: the total output length for `n` input samples
processed in full frames of `frameStep` samples at constant speed `q`,
plus the flush of the remaining tail. -/
def tsmTotalOut (n frameStep : ℕ) (q : ℚ) : ℤ :=
  (∑ k in Finset.range (n / frameStep), tsmFrameOut frameStep q k) +
    (⌊(n : ℚ) / q⌋ - tsmTarget frameStep q (n / frameStep))

/- ============================================================
   Part 2a: claims C1–C6, C8
   ============================================================ -/

/-- A concrete stream state used to exhibit the no-op setters: speed 2,
λ = 1, feedback 1/10. -/
def demoSonicState : SonicState :=
  ⟨2, 1, 1/10, [], [], 0⟩

/-- C1 (violated by the code): `sonicEnableNonlinearSpeedup` and
`sonicSetDurationFeedbackStrength` in `wasm_exports.c` only log and
return with the controller state untouched — called with λ = 1/2 and
feedback = 1/4 on a stream carrying λ = 1 and feedback = 1/10, the
stream still carries the old values afterwards, so both setters are
no-ops and subsequent synthesis cannot use the requested λ or feedback. -/
theorem c1_setters_are_noops :
    sonicEnableNonlinearSpeedup demoSonicState (1/2) = demoSonicState ∧
    (sonicEnableNonlinearSpeedup demoSonicState (1/2)).nonlinearFactor ≠ 1/2 ∧
    sonicSetDurationFeedbackStrength demoSonicState (1/4) = demoSonicState ∧
    (sonicSetDurationFeedbackStrength demoSonicState (1/4)).durationFeedbackStrength
      ≠ 1/4 := by
  refine ⟨rfl, ?_, rfl, ?_⟩
  · show (1 : ℚ) ≠ 1/2
    norm_num
  · show (1/10 : ℚ) ≠ 1/4
    norm_num

/-- Telescoping: the per-frame emissions plus the flush always total the
rounded-down overall target. -/
theorem tsmTotalOut_eq (n frameStep : ℕ) (q : ℚ) :
    tsmTotalOut n frameStep q = ⌊(n : ℚ) / q⌋ := by
  unfold tsmTotalOut tsmFrameOut
  rw [Finset.sum_range_sub (tsmTarget frameStep q)]
  have h0 : tsmTarget frameStep q 0 = 0 := by
    unfold tsmTarget
    norm_num
  rw [h0]
  ring

/-- C2: with λ = 0 the effective speed degenerates to Rg, and for every
input of `n` samples processed in frames of `S ≥ 1` samples (one 10 ms
frame at sample rates ≥ 100 Hz) at steady Rg > 0, the total output
length differs from `n / Rg` by at most one frame of `S` samples. -/
theorem c2_duration_contract (n S : ℕ) (s Rg : ℚ) (hS : 1 ≤ S) (hRg : 0 < Rg) :
    |(tsmTotalOut n S (sEff 0 s Rg) : ℚ) - (n : ℚ) / Rg| ≤ (S : ℚ) := by
  have heff : sEff 0 s Rg = Rg := by
    unfold sEff
    ring
  rw [heff, tsmTotalOut_eq]
  have h1 : (⌊(n : ℚ) / Rg⌋ : ℚ) ≤ (n : ℚ) / Rg := Int.floor_le _
  have h2 : (n : ℚ) / Rg - 1 < (⌊(n : ℚ) / Rg⌋ : ℚ) := Int.sub_one_lt_floor _
  have hS1 : (1 : ℚ) ≤ (S : ℚ) := by exact_mod_cast hS
  rw [abs_le]
  constructor <;> linarith

/-- Witness for C2 at a concrete input: 25 samples, frame step 10,
Rg = 2 (a tension-driven s = 3 is blended away by λ = 0). -/
theorem c2_duration_contract_witness :
    ((1 : ℕ) ≤ 10 ∧ (0 : ℚ) < 2) ∧
    |(tsmTotalOut 25 10 (sEff 0 3 2) : ℚ) - (25 : ℚ) / 2| ≤ (10 : ℚ) :=
  ⟨⟨by decide, by norm_num⟩,
   c2_duration_contract 25 10 3 2 (by decide) (by norm_num)⟩

/-- A concrete Analyzer state at frame 0 with an all-zero tension track. -/
def demoSpeedyState : SpeedyState := ⟨0, fun _ => 0⟩

/-- C3 counterexample: at frame 0, before the hysteresis window is full,
`try_tension` does return `None` — but the failure does not stay
internal: the JavaScript-facing `computeTension` wrapper surfaces it to
the API caller as a thrown runtime error. -/
theorem c3_tension_error_surfaced :
    speedyComputeTension demoSpeedyState 0 = none ∧
    SpeedyStreamWrapper.computeTension demoSpeedyState 0 =
      .error (.runtimeError "Insufficient data to compute tension at time 0") := by
  constructor
  · rfl
  · rfl

/-- C3 amended: for every tension query made before the hysteresis window
around the queried frame is full, the core `try_tension` returns `None`
(no tension is fabricated), and the `computeTension` wrapper surfaces the
failure to the API caller as a thrown runtime error rather than a
tension value. -/
theorem c3_tension_before_window (st : SpeedyState) (atTime : ℤ)
    (h : st.currentTime < atTime + kTemporalHysteresisFuture) :
    speedyComputeTension st atTime = none ∧
    SpeedyStreamWrapper.computeTension st atTime =
      .error (.runtimeError
        ("Insufficient data to compute tension at time " ++ toString atTime)) := by
  have hnone : speedyComputeTension st atTime = none := by
    unfold speedyComputeTension
    rw [if_neg (by omega)]
  refine ⟨hnone, ?_⟩
  unfold SpeedyStreamWrapper.computeTension
  rw [hnone]

/-- Witness for the amended C3 at the concrete early query of frame 0. -/
theorem c3_tension_before_window_witness :
    demoSpeedyState.currentTime < 0 + kTemporalHysteresisFuture ∧
    (speedyComputeTension demoSpeedyState 0 = none ∧
     SpeedyStreamWrapper.computeTension demoSpeedyState 0 =
       .error (.runtimeError
         ("Insufficient data to compute tension at time " ++ toString (0 : ℤ)))) :=
  ⟨by decide, c3_tension_before_window demoSpeedyState 0 (by decide)⟩

/-- C4: `readFloatFromStreamPtr` never fails — for every wrapper state
and requested maximum it returns `ok` with the per-channel count of the
samples drained from the output ring, the count never exceeds the
maximum, and a dry output yields the count 0 instead of an error. -/
theorem c4_read_float_never_fails (w : SonicStreamWrapper) (maxSamples : ℕ) :
    ∃ r, w.readFloatFromStreamPtr maxSamples = Except.ok r ∧
      r.1 = min maxSamples w.stream.outputRing.length ∧
      r.1 ≤ maxSamples ∧
      r.2.1.length = r.1 ∧
      (w.stream.outputRing = [] → r.1 = 0) := by
  refine ⟨((sonicReadFloatFromStream w.stream maxSamples).1,
    (sonicReadFloatFromStream w.stream maxSamples).2.1,
    { w with stream := (sonicReadFloatFromStream w.stream maxSamples).2.2 }),
    rfl, ?_, ?_, ?_, ?_⟩
  · simp [sonicReadFloatFromStream]
  · simp only [sonicReadFloatFromStream, List.length_take]
    omega
  · rfl
  · intro h
    simp [sonicReadFloatFromStream, h]

/-- A concrete wrapper used in counterexamples: 22050 Hz mono. -/
def demoWrapper : SonicStreamWrapper :=
  ⟨demoSonicState, 22050, 1, []⟩

/-- C5 counterexample: `enableNonlinearSpeedup` called with λ = 2
(outside [0, 1]) raises nothing — it returns normally with the wrapper
unchanged instead of raising `InvalidConfiguration` synchronously — and
`setSpeed` with Rg = 10 (outside [0.5, 4.0]) likewise returns normally. -/
theorem c5_no_validation_counterexample :
    demoWrapper.enableNonlinearSpeedup 2 = .ok demoWrapper ∧
    demoWrapper.setDurationFeedbackStrength 1 = .ok demoWrapper ∧
    demoWrapper.setSpeed 10 ≠ .error .invalidConfiguration := by
  exact ⟨rfl, rfl, fun h => Except.noConfusion h⟩

/-- C5 amended: the configuration setters perform no range validation and
never raise `InvalidConfiguration` — for every argument, in or out of
range, each returns normally (`enableNonlinearSpeedup` and
`setDurationFeedbackStrength` additionally apply nothing, and creation
reports only allocation failure). -/
theorem c5_setters_never_raise (w : SonicStreamWrapper) (lam fb Rg : ℚ) :
    (∃ w1, w.enableNonlinearSpeedup lam = .ok w1) ∧
    (∃ w2, w.setDurationFeedbackStrength fb = .ok w2) ∧
    (∃ w3, w.setSpeed Rg = .ok w3) :=
  ⟨⟨_, rfl⟩, ⟨_, rfl⟩, ⟨_, rfl⟩⟩

/-- The flat encoding `[t0, s0, t1, s1, …]` of a batch of
`(frame, speed)` pairs, as the profile buffer stores them. -/
def pairsFlat (ps : List (ℤ × ℚ)) : List ℚ :=
  ps.foldr (fun p acc => (p.1 : ℚ) :: p.2 :: acc) []

/-- Recording a batch of pairs appends their flat encoding to the
profile buffer. -/
theorem recordSpeed_foldl (w : SonicStreamWrapper) (ps : List (ℤ × ℚ)) :
    (ps.foldl (fun s p => s.recordSpeed p.1 p.2) w).speedProfile =
      w.speedProfile ++ pairsFlat ps := by
  induction ps generalizing w with
  | nil => simp [pairsFlat]
  | cons p ps ih =>
    rw [List.foldl_cons, ih]
    simp [SonicStreamWrapper.recordSpeed, pairsFlat]

/-- Draining leaves the profile buffer empty. -/
theorem getSpeedProfile_clears (w : SonicStreamWrapper) :
    ((w.getSpeedProfile).2).speedProfile = [] := by
  unfold SonicStreamWrapper.getSpeedProfile
  split
  · next h => exact h
  · rfl

/-- Draining an empty buffer returns nothing. -/
theorem getSpeedProfile_empty (w : SonicStreamWrapper)
    (h : w.speedProfile = []) : (w.getSpeedProfile).1 = none := by
  unfold SonicStreamWrapper.getSpeedProfile
  rw [if_pos h]

/-- The value a drain returns, as a function of the buffer. -/
theorem getSpeedProfile_fst (w : SonicStreamWrapper) :
    (w.getSpeedProfile).1 =
      if w.speedProfile = [] then none else some w.speedProfile := by
  unfold SonicStreamWrapper.getSpeedProfile
  split <;> simp_all

/-- A nonempty batch has a nonempty flat encoding. -/
theorem pairsFlat_ne_nil (p : ℤ × ℚ) (ps : List (ℤ × ℚ)) :
    pairsFlat (p :: ps) ≠ [] := by
  simp [pairsFlat]

/-- C6: with the previous drain performed, recording a batch of
`(frame, speed)` pairs and draining returns exactly that batch (flat, in
order) — `none` when no pair was recorded — the drained buffer is empty,
so each recorded pair is returned by exactly one drain call, and an
immediately repeated drain with nothing newly recorded returns nothing. -/
theorem c6_drain_speed_profile (w : SonicStreamWrapper) (ps : List (ℤ × ℚ)) :
    (((ps.foldl (fun s p => s.recordSpeed p.1 p.2)
        (w.getSpeedProfile).2).getSpeedProfile).1
      = if ps = [] then none else some (pairsFlat ps)) ∧
    (((ps.foldl (fun s p => s.recordSpeed p.1 p.2)
        (w.getSpeedProfile).2).getSpeedProfile).2).speedProfile = [] ∧
    ((((ps.foldl (fun s p => s.recordSpeed p.1 p.2)
        (w.getSpeedProfile).2).getSpeedProfile).2).getSpeedProfile).1 = none := by
  have hprof : (ps.foldl (fun s p => s.recordSpeed p.1 p.2)
      (w.getSpeedProfile).2).speedProfile = pairsFlat ps := by
    rw [recordSpeed_foldl, getSpeedProfile_clears, List.nil_append]
  refine ⟨?_, getSpeedProfile_clears _, ?_⟩
  · rw [getSpeedProfile_fst, hprof]
    rcases ps with _ | ⟨p, ps⟩
    · simp [pairsFlat]
    · rw [if_neg (pairsFlat_ne_nil p ps), if_neg (by simp)]
  · exact getSpeedProfile_empty _ (getSpeedProfile_clears _)

/-- C8: the queryable temporal hysteresis constants are independent of
the stream state, form the pair `(K_past, K_future) = (8, 12)` in the
default build and the swapped `(12, 8)` under the `MATCH_MATLAB` legacy
toggle, always sum to 20, and the Sonic-side getter agrees with the
Speedy-side future getter. -/
theorem c8_temporal_hysteresis (mm : Bool) (st st2 : SpeedyState)
    (w : SonicStreamWrapper) :
    SpeedyStreamWrapper.temporalHysteresisPast mm st =
      SpeedyStreamWrapper.temporalHysteresisPast mm st2 ∧
    SpeedyStreamWrapper.temporalHysteresisFuture mm st =
      SpeedyStreamWrapper.temporalHysteresisFuture mm st2 ∧
    SpeedyStreamWrapper.temporalHysteresisPast false st = 8 ∧
    SpeedyStreamWrapper.temporalHysteresisFuture false st = 12 ∧
    SpeedyStreamWrapper.temporalHysteresisPast true st = 12 ∧
    SpeedyStreamWrapper.temporalHysteresisFuture true st = 8 ∧
    SpeedyStreamWrapper.temporalHysteresisPast mm st +
      SpeedyStreamWrapper.temporalHysteresisFuture mm st = 20 ∧
    SonicStreamWrapper.getSpeedyTemporalHysteresisFuture mm w =
      SpeedyStreamWrapper.temporalHysteresisFuture mm st := by
  unfold SpeedyStreamWrapper.temporalHysteresisPast
    SpeedyStreamWrapper.temporalHysteresisFuture
    SonicStreamWrapper.getSpeedyTemporalHysteresisFuture
  cases mm <;> simp

/- ============================================================
   Part 2b: stream independence (claim C7)
   ============================================================ -/

/-- The operations a caller can interleave on a `SonicStream` binding. -/
inductive StreamOp where
  | writeFloat (data : List ℚ)
  | readFloat (maxSamples : ℕ)
  | flush
  | setSpeed (rate : ℚ)
  | enableNonlinear (factor : ℚ)
  | setDurationFeedback (factor : ℚ)
  | drainProfile
deriving DecidableEq

/-- The outputs a caller observes from one operation. -/
inductive StreamOut where
  | wrote (n : ℕ)
  | samples (out : List ℚ)
  | profile (p : Option (List ℚ))
  | unit
deriving DecidableEq

/-- One operation on one wrapper: the deterministic per-stream step. The
speed-callback path of `write` is included: `speedCallbackStatic` looks
the stream up in the global `streamMap` and records on the wrapper that
the constructor registered for that same stream, i.e. this one. -/
def localStep (w : SonicStreamWrapper) : StreamOp → SonicStreamWrapper × StreamOut
  | .writeFloat data =>
    (({ w with stream := (sonicWriteFloatToStream w.stream data).2 }).recordSpeed
        (sonicWriteFloatToStream w.stream data).2.frameCounter
        (sonicWriteFloatToStream w.stream data).2.speed,
     .wrote (sonicWriteFloatToStream w.stream data).1)
  | .readFloat m =>
    ({ w with stream := (sonicReadFloatFromStream w.stream m).2.2 },
     .samples (sonicReadFloatFromStream w.stream m).2.1)
  | .flush => ({ w with stream := sonicFlushStream w.stream }, .unit)
  | .setSpeed rate => ({ w with stream := sonicSetSpeed w.stream rate }, .unit)
  | .enableNonlinear f =>
    ({ w with stream := sonicEnableNonlinearSpeedup w.stream f }, .unit)
  | .setDurationFeedback f =>
    ({ w with stream := sonicSetDurationFeedbackStrength w.stream f }, .unit)
  | .drainProfile => ((w.getSpeedProfile).2, .profile (w.getSpeedProfile).1)

/-- Run a sequence of operations on one wrapper, collecting the outputs
in order. -/
def localRun (w : SonicStreamWrapper) :
    List StreamOp → SonicStreamWrapper × List StreamOut
  | [] => (w, [])
  | op :: ops =>
    ((localRun (localStep w op).1 ops).1,
     (localStep w op).2 :: (localRun (localStep w op).1 ops).2)

/-- The process state: each live stream handle (a natural-number id) owns
one wrapper — the per-key view of the global `streamMap`, whose entries
for distinct streams are distinct wrappers. -/
def StreamSystem := ℕ → SonicStreamWrapper

/-- One step of the whole process: the operation acts on the wrapper of
stream `i` and touches no other entry. -/
def sysStep (sys : StreamSystem) (i : ℕ) (op : StreamOp) :
    StreamSystem × StreamOut :=
  (Function.update sys i (localStep (sys i) op).1, (localStep (sys i) op).2)

/-- Run an interleaved trace over the whole process, tagging each output
with the id of the stream that produced it. -/
def sysRun (sys : StreamSystem) :
    List (ℕ × StreamOp) → StreamSystem × List (ℕ × StreamOut)
  | [] => (sys, [])
  | t :: ts =>
    ((sysRun (sysStep sys t.1 t.2).1 ts).1,
     (t.1, (sysStep sys t.1 t.2).2) :: (sysRun (sysStep sys t.1 t.2).1 ts).2)

/-- The subsequence of operations a trace performs on stream `i`. -/
def projOps (i : ℕ) (trace : List (ℕ × StreamOp)) : List StreamOp :=
  (trace.filter (fun t => t.1 == i)).map (fun t => t.2)

/-- The subsequence of outputs a run delivers for stream `i`. -/
def projOuts (i : ℕ) (outs : List (ℕ × StreamOut)) : List StreamOut :=
  (outs.filter (fun t => t.1 == i)).map (fun t => t.2)

/-- Locality: the final wrapper of stream `i` and the outputs delivered
for `i` by an interleaved run are exactly those of running `i`'s own
operation subsequence on `i`'s own wrapper. -/
theorem sysRun_proj (trace : List (ℕ × StreamOp)) (sys : StreamSystem) (i : ℕ) :
    (sysRun sys trace).1 i = (localRun (sys i) (projOps i trace)).1 ∧
    projOuts i (sysRun sys trace).2 = (localRun (sys i) (projOps i trace)).2 := by
  induction trace generalizing sys with
  | nil => exact ⟨rfl, rfl⟩
  | cons t ts ih =>
    obtain ⟨j, op⟩ := t
    by_cases hji : j = i
    · subst hji
      have hops : projOps j ((j, op) :: ts) = op :: projOps j ts := by
        simp [projOps]
      have hupd : Function.update sys j (localStep (sys j) op).1 j =
          (localStep (sys j) op).1 := Function.update_same _ _ _
      constructor
      · show (sysRun (Function.update sys j (localStep (sys j) op).1) ts).1 j = _
        rw [hops, (ih (Function.update sys j (localStep (sys j) op).1)).1, hupd]
        rfl
      · show projOuts j ((j, (localStep (sys j) op).2) ::
            (sysRun (Function.update sys j (localStep (sys j) op).1) ts).2) = _
        have houts : projOuts j ((j, (localStep (sys j) op).2) ::
            (sysRun (Function.update sys j (localStep (sys j) op).1) ts).2) =
            (localStep (sys j) op).2 :: projOuts j
              (sysRun (Function.update sys j (localStep (sys j) op).1) ts).2 := by
          simp [projOuts]
        rw [houts, hops, (ih (Function.update sys j (localStep (sys j) op).1)).2, hupd]
        rfl
    · have hops : projOps i ((j, op) :: ts) = projOps i ts := by
        simp [projOps, hji]
      have hupd : Function.update sys j (localStep (sys j) op).1 i = sys i :=
        Function.update_noteq (fun h => hji h.symm) _ _
      constructor
      · show (sysRun (Function.update sys j (localStep (sys j) op).1) ts).1 i = _
        rw [hops, (ih (Function.update sys j (localStep (sys j) op).1)).1, hupd]
      · show projOuts i ((j, (localStep (sys j) op).2) ::
            (sysRun (Function.update sys j (localStep (sys j) op).1) ts).2) = _
        have houts : projOuts i ((j, (localStep (sys j) op).2) ::
            (sysRun (Function.update sys j (localStep (sys j) op).1) ts).2) =
            projOuts i (sysRun (Function.update sys j (localStep (sys j) op).1) ts).2 := by
          simp [projOuts, hji]
        rw [houts, hops, (ih (Function.update sys j (localStep (sys j) op).1)).2, hupd]

/-- C7: streams are operationally independent — for any interleaved trace
over stream ids, two streams that start from equal wrappers (same sample
rate, channel count and configuration) and receive equal operation
subsequences (identical inputs) deliver identical output sequences and
end in identical states, regardless of how the trace interleaves them. -/
theorem c7_stream_independence (sys : StreamSystem) (trace : List (ℕ × StreamOp))
    (i j : ℕ) (hinit : sys i = sys j)
    (hops : projOps i trace = projOps j trace) :
    projOuts i (sysRun sys trace).2 = projOuts j (sysRun sys trace).2 ∧
    (sysRun sys trace).1 i = (sysRun sys trace).1 j := by
  obtain ⟨hs1, ho1⟩ := sysRun_proj trace sys i
  obtain ⟨hs2, ho2⟩ := sysRun_proj trace sys j
  constructor
  · rw [ho1, ho2, hinit, hops]
  · rw [hs1, hs2, hinit, hops]

/-- The `SonicStreamWrapper` constructor (`bindings.cpp`): store the
creation parameters, create the engine stream (modelled from the spec
with speed 1, λ 0, feedback 1/10 and empty rings) and an empty profile
buffer, and register the wrapper in the map under the new stream. -/
def SonicStreamWrapper.create (sampleRate numChannels : ℤ) : SonicStreamWrapper :=
  ⟨⟨1, 0, 1/10, [], [], 0⟩, sampleRate, numChannels, []⟩

/-- A concrete interleaved trace driving streams 0 and 1 with identical
configuration and inputs. -/
def demoTrace : List (ℕ × StreamOp) :=
  [(0, .setSpeed 2), (1, .setSpeed 2), (0, .writeFloat [1, 2, 3, 4]),
   (1, .writeFloat [1, 2, 3, 4]), (0, .readFloat 8), (1, .readFloat 8)]

/-- Witness for C7 at the concrete interleaving `demoTrace` on two
identically created 22050 Hz mono streams. -/
theorem c7_stream_independence_witness :
    ((fun _ : ℕ => SonicStreamWrapper.create 22050 1) 0 =
        (fun _ : ℕ => SonicStreamWrapper.create 22050 1) 1 ∧
      projOps 0 demoTrace = projOps 1 demoTrace) ∧
    (projOuts 0 (sysRun (fun _ => SonicStreamWrapper.create 22050 1) demoTrace).2 =
        projOuts 1 (sysRun (fun _ => SonicStreamWrapper.create 22050 1) demoTrace).2 ∧
      (sysRun (fun _ => SonicStreamWrapper.create 22050 1) demoTrace).1 0 =
        (sysRun (fun _ => SonicStreamWrapper.create 22050 1) demoTrace).1 1) :=
  ⟨⟨rfl, by rfl⟩,
   c7_stream_independence (fun _ => SonicStreamWrapper.create 22050 1) demoTrace
     0 1 rfl (by rfl)⟩
